import Mathlib

/-!
Shallow embedding of the `Grid` class of `sudoku.py` (py-sudoku) and proofs
about its operations: per-cell accessors, bulk grid replacement, candidate
generation (`get_possibilities`), most-constrained-cell selection
(`find_most_constrained`), the breadth-first branch-and-expand `solve` loop,
and the textual rendering (`to_string`).

The grid is a 9x9 matrix of small naturals (0 = unassigned, 1-9 = assigned),
modelled as a function `Fin 9 → Fin 9 → ℕ`.  Frontier snapshots are plain
values of this function type, which gives the value/copy semantics of the
NumPy snapshots (`get_grid` returns a copy) for free.
-/

namespace Sudoku

/-- The 9x9 grid of cell values.  `sudoku.py` stores `self.__G`, a NumPy
`(9, 9)` array of int8; all values handled by the program are in `[0, 9]`. -/
abbrev Grid := Fin 9 → Fin 9 → ℕ

/-- `Grid.__init__`: a 9x9 grid of zeros. -/
def zeroGrid : Grid := fun _ _ => 0

/-- `Grid.set_number(row, column, value)`: `self.__G[row, column] = value`
(for in-range coordinates). -/
def set_number (g : Grid) (row column : Fin 9) (value : ℕ) : Grid :=
  fun r c => if r = row ∧ c = column then value else g r c

/-- `Grid.get_number(row, column)`: `return self.__G[row, column]`
(for in-range coordinates). -/
def get_number (g : Grid) (row column : Fin 9) : ℕ :=
  g row column

/-- NumPy index resolution for one axis of a `(9, 9)` array: an index in
`[0, 9)` is used as is, an index in `[-9, 0)` silently wraps to `i + 9`,
anything else raises `IndexError`. -/
def npIndex (i : Int) : Except String (Fin 9) :=
  if h : 0 ≤ i ∧ i < 9 then Except.ok ⟨i.toNat, by omega⟩
  else if h2 : -9 ≤ i ∧ i < 0 then Except.ok ⟨(i + 9).toNat, by omega⟩
  else Except.error "IndexError: index out of bounds for axis of size 9"

/-- `Grid.get_number` as invoked with raw (possibly out-of-range) integer
coordinates: NumPy either resolves both indices or raises `IndexError`. -/
def get_number_checked (g : Grid) (row column : Int) : Except String ℕ :=
  match npIndex row, npIndex column with
  | Except.ok r, Except.ok c => Except.ok (g r c)
  | Except.error msg, _ => Except.error msg
  | _, Except.error msg => Except.error msg

/-- `Grid.set_number` as invoked with raw (possibly out-of-range) integer
coordinates: NumPy either resolves both indices and writes that cell, or
raises `IndexError` and leaves the grid untouched. -/
def set_number_checked (g : Grid) (row column : Int) (value : ℕ) :
    Except String Grid :=
  match npIndex row, npIndex column with
  | Except.ok r, Except.ok c => Except.ok (set_number g r c value)
  | Except.error msg, _ => Except.error msg
  | _, Except.error msg => Except.error msg

/-- `Grid.clear()`: sets all 81 cells to 0. -/
def clear (_g : Grid) : Grid := fun _ _ => 0

/-- A NumPy array as passed to `Grid.set_grid`: a shape (list of extents)
together with the element data, read through two indices (only consulted
when the shape is two-dimensional). -/
structure NpArray where
  shape : List ℕ
  data : ℕ → ℕ → ℕ

/-- `Grid.set_grid(grid)`: if `len(grid.shape) == 2` and both extents are 9,
replace the whole state with a copy of the input; otherwise do nothing. -/
def set_grid (g : Grid) (a : NpArray) : Grid :=
  match a.shape with
  | [d0, d1] => if d0 = 9 ∧ d1 = 9 then (fun r c => a.data r.val c.val) else g
  | _ => g

/-- `Grid.get_grid()`: returns a copy of the 9x9 state (copies are value
semantics; our grids are already values). -/
def get_grid (g : Grid) : Grid := g

/-- `Grid.is_solved(row, column)`: the cell holds a value `> 0`. -/
def is_solved (g : Grid) (row column : Fin 9) : Bool :=
  decide (0 < g row column)

/-- All 81 cells in row-major order, the iteration order of the nested
`for row in range(9): for column in range(9)` loops. -/
def allCells : List (Fin 9 × Fin 9) :=
  (List.finRange 9).flatMap fun r => (List.finRange 9).map fun c => (r, c)

/-- `Grid.is_completed()`: every one of the 81 cells is assigned. -/
def is_completed (g : Grid) : Bool :=
  allCells.all fun rc => is_solved g rc.1 rc.2

/-- The row of a cell, `self.__G[row, :]`. -/
def rowValues (g : Grid) (row : Fin 9) : List ℕ :=
  List.ofFn fun c : Fin 9 => g row c

/-- The column of a cell, `self.__G[:, column]`. -/
def colValues (g : Grid) (column : Fin 9) : List ℕ :=
  List.ofFn fun r : Fin 9 => g r column

/-- One axis index inside the 3x3 box of `a`: the box origin `(a // 3) * 3`
plus an offset `d < 3`; always again in `[0, 9)`. -/
def boxIdx (a : Fin 9) (d : Fin 3) : Fin 9 :=
  ⟨a.val / 3 * 3 + d.val, by
    have h1 := a.isLt
    have h2 := d.isLt
    omega⟩

/-- The 3x3 box of a cell, `self.__G[x : x + 3, y : y + 3]` with
`x, y = (row // 3) * 3, (column // 3) * 3`. -/
def boxValues (g : Grid) (row column : Fin 9) : List ℕ :=
  (List.finRange 3).flatMap fun dr =>
    (List.finRange 3).map fun dc => g (boxIdx row dr) (boxIdx column dc)

/-- `Grid.get_possibilities(row, column)`: a singleton of the stored value
for an assigned cell, otherwise
`[i for i in range(1, 10) if (i not in row) & (i not in column) & (i not in square)]`. -/
def get_possibilities (g : Grid) (row column : Fin 9) : List ℕ :=
  let c := get_number g row column
  if 0 < c then [c]
  else
    (List.range' 1 9).filter fun i =>
      decide (i ∉ rowValues g row) && decide (i ∉ colValues g column) &&
        decide (i ∉ boxValues g row column)

/-- Candidate count of a cell, `len(self.get_possibilities(row, column))`. -/
def pcount (g : Grid) (rc : Fin 9 × Fin 9) : ℕ :=
  (get_possibilities g rc.1 rc.2).length

/-- One step of the `find_most_constrained` scan: skip solved cells, replace
the retained `(lowest, field)` when the candidate count is strictly lower. -/
def fmcStep (g : Grid) (st : ℕ × Int × Int) (rc : Fin 9 × Fin 9) : ℕ × Int × Int :=
  if is_solved g rc.1 rc.2 then st
  else if pcount g rc < st.1 then (pcount g rc, (rc.1.val, rc.2.val)) else st

/-- `Grid.find_most_constrained()`: scan all cells in row-major order,
starting from `lowest = 10`, `field = (-1, -1)`. -/
def find_most_constrained (g : Grid) : Int × Int :=
  (allCells.foldl (fmcStep g) (10, (-1, -1))).2

/-- The unassigned cells, in row-major order. -/
def unassignedCells (g : Grid) : List (Fin 9 × Fin 9) :=
  allCells.filter fun rc => decide (g rc.1 rc.2 = 0)

/-- Modelled from the spec: "selects the most-constrained unassigned cell"
with the fewest candidates, "ties broken by first-encountered in row-major
scan order"; `none` when every cell is assigned. -/
def specSelect (g : Grid) : Option (Fin 9 × Fin 9) :=
  (unassignedCells g).argmin (pcount g)

/-- Row-major position of a cell: the rank at which the nested
`for row / for column` scan reaches it. -/
def posIdx (rc : Fin 9 × Fin 9) : ℕ :=
  rc.1.val * 9 + rc.2.val

/-- The `for possibility in possibilities` loop of `Grid.solve`: write each
candidate into the live grid in turn and append a snapshot of the result to
the back of the queue.  Returns the final live grid and queue. -/
def expand (g : Grid) (row column : Fin 9) (queue : List Grid) :
    Grid × List Grid :=
  (get_possibilities g row column).foldl
    (fun st p =>
      let g2 := set_number st.1 row column p
      (g2, st.2 ++ [g2]))
    (g, queue)

/-- The local state of one `Grid.solve` invocation: the live grid (`self`),
the FIFO `queue` of snapshots and the two loop flags. -/
structure SolveState where
  grid : Grid
  queue : List Grid
  completed : Bool
  abort : Bool

/-- One iteration of the `while` body of `Grid.solve`: find the most
constrained field (NumPy resolves its possibly `-1` coordinates), push a
snapshot per candidate, pop the front snapshot into the live grid,
re-evaluate completion and abort when the queue has become empty.
The error and empty-pop fallbacks are unreachable under the loop guard. -/
def solveBody (s : SolveState) : SolveState :=
  match npIndex (find_most_constrained s.grid).1,
      npIndex (find_most_constrained s.grid).2 with
  | Except.ok r, Except.ok c =>
    let g1 := (expand s.grid r c s.queue).1
    match (expand s.grid r c s.queue).2 with
    | [] => ⟨g1, [], is_completed g1, true⟩
    | h :: t => ⟨h, t, is_completed h, t.isEmpty⟩
  | _, _ => ⟨s.grid, s.queue, s.completed, true⟩

/-- The `while (not completed) & (not abort)` loop of `Grid.solve`, with an
explicit fuel; `solve` runs it with provably sufficient fuel. -/
def solveFuel : ℕ → SolveState → SolveState
  | 0, s => s
  | n + 1, s => if s.completed || s.abort then s else solveFuel n (solveBody s)

/-- The state at the top of `Grid.solve`: one snapshot queued,
`completed = self.is_completed()`, `abort = False`. -/
def initState (g : Grid) : SolveState :=
  ⟨g, [get_grid g], is_completed g, false⟩

/-- `T d` bounds the size of a `d`-deep 9-ary expansion tree:
`T 0 = 1`, `T (d+1) = 1 + 9 * T d`. -/
def T : ℕ → ℕ
  | 0 => 1
  | d + 1 => 1 + 9 * T d

/-- Number of assigned cells of a grid. -/
def assignedCount (g : Grid) : ℕ :=
  (Finset.univ.filter fun rc : Fin 9 × Fin 9 => 0 < g rc.1 rc.2).card

/-- Termination measure of the solve loop: each queued snapshot and the live
grid contribute the size bound of the expansion tree still above them. -/
def measure (g : Grid) (queue : List Grid) : ℕ :=
  (queue.map fun q => T (81 - assignedCount q)).sum + T (81 - assignedCount g)

/-- `Grid.solve()`: run the loop from the initial state with sufficient
fuel and return the final live grid. -/
def solve (g : Grid) : Grid :=
  (solveFuel (measure g [g]) (initState g)).grid

/-- Modelled from the spec (section 4.3): the breadth-first branch-and-expand
loop.  While the live grid is not completed and the frontier is non-empty:
select the most-constrained unassigned cell of the live grid, push one
snapshot per candidate value (in ascending order) onto the back of the
frontier, pop the front snapshot into the live grid and re-enter the loop;
on exhaustion the live grid is the last-popped snapshot.  The `none` and
empty-match fallbacks are unreachable. -/
def solveSpecFuel : ℕ → Grid → List Grid → Grid
  | 0, g, _ => g
  | n + 1, g, queue =>
    if is_completed g then g
    else
      match queue with
      | [] => g
      | _ :: _ =>
        match specSelect g with
        | none => g
        | some (r, c) =>
          match queue ++ (get_possibilities g r c).map (set_number g r c) with
          | [] => g
          | h :: t => solveSpecFuel n h t

/-- Modelled from the spec (section 4.3): initialize the FIFO frontier with
one snapshot of the current grid and run the loop. -/
def solveSpec (g : Grid) : Grid :=
  solveSpecFuel (measure g [g]) g [g]

/-- Rendering of one cell: its digit if assigned, `?` otherwise. -/
def digitStr (n : ℕ) : String :=
  if 0 < n then toString n else "?"

/-- Rendering of one data row: cells in column order with a single `|`
inserted before columns 3 and 6. -/
def rowStr (g : Grid) (row : Fin 9) : String :=
  String.join <|
    (List.finRange 9).foldl
      (fun acc c =>
        acc ++ (if c.val % 3 = 0 ∧ 0 < c.val then ["|"] else []) ++
          [digitStr (get_number g row c)])
      []

/-- `Grid.to_string()`: the nine data rows joined by newlines, with the
separator row `---+---+---` inserted before rows 3 and 6. -/
def to_string (g : Grid) : String :=
  String.intercalate "\n" <|
    (List.finRange 9).foldl
      (fun acc r =>
        acc ++ (if r.val % 3 = 0 ∧ 0 < r.val then ["---+---+---"] else []) ++
          [rowStr g r])
      []

/-! ### Basic lemmas about cells and candidate lists -/

theorem set_number_apply (g : Grid) (row column : Fin 9) (v : ℕ) (r c : Fin 9) :
    set_number g row column v r c = if r = row ∧ c = column then v else g r c :=
  rfl

theorem set_number_same (g : Grid) (row column : Fin 9) (v : ℕ) :
    set_number g row column v row column = v := by
  simp [set_number]

theorem set_number_other (g : Grid) (row column : Fin 9) (v : ℕ) (r c : Fin 9)
    (h : ¬(r = row ∧ c = column)) : set_number g row column v r c = g r c := by
  simp [set_number, h]

theorem set_number_overwrite (g : Grid) (row column : Fin 9) (v w : ℕ) :
    set_number (set_number g row column v) row column w =
      set_number g row column w := by
  funext r c
  by_cases h : r = row ∧ c = column <;> simp [set_number, h]

theorem mem_allCells (rc : Fin 9 × Fin 9) : rc ∈ allCells := by
  obtain ⟨r, c⟩ := rc
  simp only [allCells, List.mem_flatMap, List.mem_map]
  exact ⟨r, List.mem_finRange r, c, List.mem_finRange c, rfl⟩

theorem is_completed_iff (g : Grid) :
    is_completed g = true ↔ ∀ r c : Fin 9, 0 < g r c := by
  simp only [is_completed, List.all_eq_true, is_solved, decide_eq_true_eq]
  exact ⟨fun h r c => h (r, c) (mem_allCells _), fun h rc _ => h rc.1 rc.2⟩

theorem is_completed_false_iff (g : Grid) :
    is_completed g = false ↔ ∃ r c : Fin 9, g r c = 0 := by
  rw [← Bool.not_eq_true, is_completed_iff]
  push_neg
  constructor
  · rintro ⟨r, c, h⟩
    exact ⟨r, c, Nat.le_zero.mp h⟩
  · rintro ⟨r, c, h⟩
    exact ⟨r, c, by omega⟩

theorem mem_rowValues (g : Grid) (row : Fin 9) (d : ℕ) :
    d ∈ rowValues g row ↔ ∃ c : Fin 9, g row c = d := by
  unfold rowValues
  rw [List.mem_ofFn]
  simp only [Set.mem_range]

theorem mem_colValues (g : Grid) (column : Fin 9) (d : ℕ) :
    d ∈ colValues g column ↔ ∃ r : Fin 9, g r column = d := by
  unfold colValues
  rw [List.mem_ofFn]
  simp only [Set.mem_range]

theorem mem_boxValues (g : Grid) (row column : Fin 9) (d : ℕ) :
    d ∈ boxValues g row column ↔
      ∃ dr dc : Fin 3, g (boxIdx row dr) (boxIdx column dc) = d := by
  simp [boxValues, List.mem_flatMap, List.mem_map, List.mem_finRange]

theorem mem_possibilities_unassigned (g : Grid) (row column : Fin 9)
    (h : g row column = 0) (d : ℕ) :
    d ∈ get_possibilities g row column ↔
      1 ≤ d ∧ d ≤ 9 ∧ d ∉ rowValues g row ∧ d ∉ colValues g column ∧
        d ∉ boxValues g row column := by
  simp only [get_possibilities, get_number, h, if_neg (lt_irrefl 0),
    List.mem_filter, List.mem_range'_1, Bool.and_eq_true, decide_eq_true_eq]
  constructor
  · rintro ⟨⟨h1, h2⟩, ⟨h3, h4⟩, h5⟩
    exact ⟨h1, by omega, h3, h4, h5⟩
  · rintro ⟨h1, h2, h3, h4, h5⟩
    exact ⟨⟨h1, by omega⟩, ⟨h3, h4⟩, h5⟩

theorem possibilities_pairwise (g : Grid) (row column : Fin 9) :
    List.Pairwise (· < ·) (get_possibilities g row column) := by
  unfold get_possibilities
  dsimp only
  split
  · exact List.pairwise_singleton _ _
  · exact List.Pairwise.sublist (List.filter_sublist _) (List.pairwise_lt_range' 1 9)

theorem possibilities_length_le (g : Grid) (row column : Fin 9)
    (h : g row column = 0) :
    (get_possibilities g row column).length ≤ 9 := by
  simp only [get_possibilities, get_number, h, if_neg (lt_irrefl 0)]
  calc (List.filter _ (List.range' 1 9)).length ≤ (List.range' 1 9).length :=
        List.length_filter_le _ _
    _ = 9 := by simp

theorem possibilities_pos (g : Grid) (row column : Fin 9)
    (h : g row column = 0) {p : ℕ} (hp : p ∈ get_possibilities g row column) :
    1 ≤ p := by
  simp only [get_possibilities, get_number, h, if_neg (lt_irrefl 0),
    List.mem_filter, List.mem_range'_1] at hp
  exact hp.1.1

/-! ### npIndex lemmas -/

theorem npIndex_error_iff (i : Int) :
    (∃ msg, npIndex i = Except.error msg) ↔ i < -9 ∨ 9 ≤ i := by
  unfold npIndex
  split_ifs with h1 h2
  · constructor
    · rintro ⟨msg, hmsg⟩
      exact absurd hmsg (by simp)
    · intro h
      omega
  · constructor
    · rintro ⟨msg, hmsg⟩
      exact absurd hmsg (by simp)
    · intro h
      omega
  · constructor
    · intro _
      omega
    · intro _
      exact ⟨_, rfl⟩

theorem npIndex_ok_of_mem {i : Int} (h : ¬(i < -9 ∨ 9 ≤ i)) :
    ∃ r : Fin 9, npIndex i = Except.ok r := by
  unfold npIndex
  split_ifs with h1 h2
  · exact ⟨_, rfl⟩
  · exact ⟨_, rfl⟩
  · omega

theorem npIndex_coe (r : Fin 9) : npIndex (r.val : Int) = Except.ok r := by
  have hlt := r.isLt
  unfold npIndex
  rw [dif_pos (by omega)]
  apply congrArg Except.ok
  apply Fin.ext
  show ((r.val : Int)).toNat = r.val
  omega

theorem get_number_checked_err_left (g : Grid) {i : Int} (j : Int) {m : String}
    (h : npIndex i = Except.error m) :
    get_number_checked g i j = Except.error m := by
  unfold get_number_checked
  rw [h]
  cases npIndex j <;> rfl

theorem get_number_checked_err_right (g : Grid) {i j : Int} {r : Fin 9}
    {m : String} (h : npIndex i = Except.ok r)
    (h2 : npIndex j = Except.error m) :
    get_number_checked g i j = Except.error m := by
  unfold get_number_checked
  rw [h, h2]

theorem get_number_checked_ok (g : Grid) {i j : Int} {r c : Fin 9}
    (h : npIndex i = Except.ok r) (h2 : npIndex j = Except.ok c) :
    get_number_checked g i j = Except.ok (g r c) := by
  unfold get_number_checked
  rw [h, h2]

theorem set_number_checked_err_left (g : Grid) {i : Int} (j : Int) (v : ℕ)
    {m : String} (h : npIndex i = Except.error m) :
    set_number_checked g i j v = Except.error m := by
  unfold set_number_checked
  rw [h]
  cases npIndex j <;> rfl

theorem set_number_checked_err_right (g : Grid) {i j : Int} (v : ℕ) {r : Fin 9}
    {m : String} (h : npIndex i = Except.ok r)
    (h2 : npIndex j = Except.error m) :
    set_number_checked g i j v = Except.error m := by
  unfold set_number_checked
  rw [h, h2]

theorem set_number_checked_ok (g : Grid) {i j : Int} (v : ℕ) {r c : Fin 9}
    (h : npIndex i = Except.ok r) (h2 : npIndex j = Except.ok c) :
    set_number_checked g i j v = Except.ok (set_number g r c v) := by
  unfold set_number_checked
  rw [h, h2]

/-! ### Claim theorems: basic operations -/

/-- C7: for every grid, every in-range cell and every value in [0, 9],
`get_number` after `set_number` returns the value just written. -/
theorem C7_set_get_roundtrip (g : Grid) (row column : Fin 9) (v : ℕ)
    (_hv : v ≤ 9) :
    get_number (set_number g row column v) row column = v := by
  simp [get_number, set_number]

theorem C7_set_get_roundtrip_witness :
    (9 : ℕ) ≤ 9 ∧ get_number (set_number zeroGrid 0 0 9) 0 0 = 9 :=
  ⟨by decide, C7_set_get_roundtrip zeroGrid 0 0 9 (by decide)⟩

/-- C4: on an assigned cell (value > 0), `get_possibilities` returns exactly
the singleton list holding that value. -/
theorem C4_assigned_singleton (g : Grid) (row column : Fin 9)
    (h : 0 < g row column) :
    get_possibilities g row column = [g row column] := by
  simp [get_possibilities, get_number, h]

theorem C4_assigned_singleton_witness :
    0 < set_number zeroGrid 0 0 5 0 0 ∧
      get_possibilities (set_number zeroGrid 0 0 5) 0 0 =
        [set_number zeroGrid 0 0 5 0 0] :=
  ⟨by decide, C4_assigned_singleton (set_number zeroGrid 0 0 5) 0 0 (by decide)⟩

/-- C5: `set_grid` replaces the whole state with a copy of the input exactly
when the input shape is 9x9, and otherwise leaves every cell unchanged. -/
theorem C5_set_grid_shape (g : Grid) (a : NpArray) :
    set_grid g a =
      if a.shape = [9, 9] then (fun r c : Fin 9 => a.data r.val c.val)
      else g := by
  obtain ⟨shape, data⟩ := a
  rcases shape with _ | ⟨d0, _ | ⟨d1, _ | ⟨d2, rest⟩⟩⟩
  · simp [set_grid]
  · simp [set_grid]
  · simp only [set_grid]
    split_ifs with h1 h2 <;> simp_all
  · simp [set_grid]

/-- C6 counterexample: `get_number` invoked with row `-1` — outside `[0, 9)`
— does not fail: NumPy silently wraps the index and reads cell `(8, 0)`. -/
theorem C6_counterexample :
    get_number_checked (set_number zeroGrid 8 0 7) (-1) 0 = Except.ok 7 ∧
      ¬∃ msg, get_number_checked (set_number zeroGrid 8 0 7) (-1) 0 =
        Except.error msg := by
  constructor
  · rfl
  · rintro ⟨msg, hmsg⟩
    have h1 : get_number_checked (set_number zeroGrid 8 0 7) (-1) 0 =
        Except.ok 7 := rfl
    rw [h1] at hmsg
    exact Except.noConfusion hmsg

/-- C6 (amended): a per-cell operation raises an index error exactly when a
coordinate lies outside `[-9, 9)`; coordinates in `[-9, 0)` are silently
wrapped by adding 9 (NumPy negative indexing), so they read or write a cell
instead of failing. -/
theorem C6_cell_op_bounds (g : Grid) (i j : Int) (v : ℕ) :
    ((∃ msg, get_number_checked g i j = Except.error msg) ↔
      i < -9 ∨ 9 ≤ i ∨ j < -9 ∨ 9 ≤ j) ∧
    ((∃ msg, set_number_checked g i j v = Except.error msg) ↔
      i < -9 ∨ 9 ≤ i ∨ j < -9 ∨ 9 ≤ j) := by
  by_cases hi : i < -9 ∨ 9 ≤ i
  · obtain ⟨mi, hmi⟩ := (npIndex_error_iff i).mpr hi
    rw [get_number_checked_err_left g j hmi,
      set_number_checked_err_left g j v hmi]
    constructor <;> constructor <;> intro _
    · omega
    · exact ⟨mi, rfl⟩
    · omega
    · exact ⟨mi, rfl⟩
  · obtain ⟨r, hr⟩ := npIndex_ok_of_mem hi
    by_cases hj : j < -9 ∨ 9 ≤ j
    · obtain ⟨mj, hmj⟩ := (npIndex_error_iff j).mpr hj
      rw [get_number_checked_err_right g hr hmj,
        set_number_checked_err_right g v hr hmj]
      constructor <;> constructor <;> intro _
      · omega
      · exact ⟨mj, rfl⟩
      · omega
      · exact ⟨mj, rfl⟩
    · obtain ⟨c, hc⟩ := npIndex_ok_of_mem hj
      rw [get_number_checked_ok g hr hc, set_number_checked_ok g v hr hc]
      constructor <;> constructor
      · rintro ⟨msg, hmsg⟩
        exact Except.noConfusion hmsg
      · intro hor
        omega
      · rintro ⟨msg, hmsg⟩
        exact Except.noConfusion hmsg
      · intro hor
        omega

/-- C8: on the all-zero grid, `to_string` yields exactly 11 newline-joined
lines: nine data rows, each `?` for all nine unassigned cells with two `|`
column separators, and the separator row `---+---+---` (three 3-dash groups
joined by `+`) after the third and the sixth data row. -/
theorem C8_to_string_zero :
    to_string zeroGrid = String.intercalate "\n"
      ["???|???|???", "???|???|???", "???|???|???", "---+---+---",
       "???|???|???", "???|???|???", "???|???|???", "---+---+---",
       "???|???|???", "???|???|???", "???|???|???"] ∧
    ("???|???|???" : String).toList.count '|' = 2 ∧
    ("???|???|???" : String).toList.count '?' = 9 ∧
    ("---+---+---" : String) = "---" ++ "+" ++ "---" ++ "+" ++ "---" :=
  ⟨rfl, by decide, by decide, rfl⟩

/-- C2: on an unassigned cell, `get_possibilities` returns, in ascending
order, exactly the digits 1..9 absent from the cell's row, column and
containing 3x3 box (origin `(row / 3 * 3, column / 3 * 3)`); in particular
it is empty exactly when every digit occurs in one of the three groups. -/
theorem C2_possibilities_unassigned (g : Grid) (row column : Fin 9)
    (h : g row column = 0) :
    List.Pairwise (· < ·) (get_possibilities g row column) ∧
    (∀ d : ℕ, d ∈ get_possibilities g row column ↔
      1 ≤ d ∧ d ≤ 9 ∧ (∀ c' : Fin 9, g row c' ≠ d) ∧
        (∀ r' : Fin 9, g r' column ≠ d) ∧
        (∀ dr dc : Fin 3, g (boxIdx row dr) (boxIdx column dc) ≠ d)) ∧
    (get_possibilities g row column = [] ↔
      ∀ d : ℕ, 1 ≤ d → d ≤ 9 →
        (∃ c' : Fin 9, g row c' = d) ∨ (∃ r' : Fin 9, g r' column = d) ∨
          ∃ dr dc : Fin 3, g (boxIdx row dr) (boxIdx column dc) = d) := by
  have hmem : ∀ d : ℕ, d ∈ get_possibilities g row column ↔
      1 ≤ d ∧ d ≤ 9 ∧ (∀ c' : Fin 9, g row c' ≠ d) ∧
        (∀ r' : Fin 9, g r' column ≠ d) ∧
        (∀ dr dc : Fin 3, g (boxIdx row dr) (boxIdx column dc) ≠ d) := by
    intro d
    rw [mem_possibilities_unassigned g row column h d, mem_rowValues,
      mem_colValues, mem_boxValues]
    push_neg
    tauto
  refine ⟨possibilities_pairwise g row column, hmem, ?_⟩
  rw [List.eq_nil_iff_forall_not_mem]
  constructor
  · intro hempty d h1 h9
    by_contra hc
    push_neg at hc
    exact hempty d ((hmem d).mpr ⟨h1, h9, hc.1, hc.2.1, hc.2.2⟩)
  · intro hall d hd
    obtain ⟨h1, h9, hrow, hcol, hbox⟩ := (hmem d).mp hd
    rcases hall d h1 h9 with ⟨c', hc'⟩ | ⟨r', hr'⟩ | ⟨dr, dc, hb⟩
    · exact hrow c' hc'
    · exact hcol r' hr'
    · exact hbox dr dc hb

theorem C2_possibilities_unassigned_witness :
    zeroGrid 0 0 = 0 ∧
      List.Pairwise (· < ·) (get_possibilities zeroGrid 0 0) :=
  ⟨rfl, (C2_possibilities_unassigned zeroGrid 0 0 rfl).1⟩

/-! ### find_most_constrained: relation to a first-tie-break argmin -/

theorem foldl_filter_eq {α σ : Type} (p : α → Bool) (f : σ → α → σ) :
    ∀ (l : List α) (s : σ),
      (l.filter p).foldl f s = l.foldl (fun s a => if p a then f s a else s) s := by
  intro l
  induction l with
  | nil =>
    intro s
    rfl
  | cons a l ih =>
    intro s
    by_cases h : p a <;> simp [List.filter_cons, h, ih]

theorem foldl_rel {α σ τ : Type} {R : σ → τ → Prop} {f : σ → α → σ}
    {f2 : τ → α → τ} (hstep : ∀ s t a, R s t → R (f s a) (f2 t a)) :
    ∀ (l : List α) (s : σ) (t : τ), R s t → R (l.foldl f s) (l.foldl f2 t) := by
  intro l
  induction l with
  | nil =>
    intro s t h
    exact h
  | cons a l ih =>
    intro s t h
    exact ih _ _ (hstep s t a h)

theorem mem_unassignedCells (g : Grid) (rc : Fin 9 × Fin 9) :
    rc ∈ unassignedCells g ↔ g rc.1 rc.2 = 0 := by
  simp [unassignedCells, List.mem_filter, mem_allCells]

theorem pcount_le_nine (g : Grid) (rc : Fin 9 × Fin 9)
    (h : g rc.1 rc.2 = 0) : pcount g rc ≤ 9 :=
  possibilities_length_le g rc.1 rc.2 h

theorem fmc_eq_specSelect (g : Grid) :
    find_most_constrained g =
      match specSelect g with
      | none => (-1, -1)
      | some rc => ((rc.1.val : Int), (rc.2.val : Int)) := by
  have hspec : specSelect g =
      allCells.foldl
        (fun o a =>
          if decide (g a.1 a.2 = 0) then
            List.argAux (fun b c => pcount g b < pcount g c) o a
          else o)
        none := by
    show (allCells.filter fun rc => decide (g rc.1 rc.2 = 0)).foldl
        (List.argAux fun b c => pcount g b < pcount g c) none = _
    exact foldl_filter_eq _ _ allCells none
  have hrel :
      ∀ st : ℕ × Int × Int, ∀ o : Option (Fin 9 × Fin 9),
        ∀ a : Fin 9 × Fin 9,
        ((o = none ∧ st = (10, (-1, -1))) ∨
          ∃ rc, o = some rc ∧
            st = (pcount g rc, ((rc.1.val : Int), (rc.2.val : Int))) ∧
            pcount g rc ≤ 9) →
          ((if decide (g a.1 a.2 = 0) then
              List.argAux (fun b c => pcount g b < pcount g c) o a
            else o) = none ∧ fmcStep g st a = (10, (-1, -1))) ∨
          ∃ rc,
            (if decide (g a.1 a.2 = 0) then
              List.argAux (fun b c => pcount g b < pcount g c) o a
            else o) = some rc ∧
            fmcStep g st a = (pcount g rc, ((rc.1.val : Int), (rc.2.val : Int))) ∧
            pcount g rc ≤ 9 := by
    intro st o a hR
    by_cases ha : g a.1 a.2 = 0
    · have hsolved : is_solved g a.1 a.2 = false := by
        simp [is_solved, ha]
      have hca : pcount g a ≤ 9 := pcount_le_nine g a ha
      rw [if_pos (by simp [ha])]
      rcases hR with ⟨ho, hst⟩ | ⟨rc, ho, hst, hle⟩
      · subst ho
        subst hst
        right
        refine ⟨a, rfl, ?_, hca⟩
        unfold fmcStep
        rw [hsolved]
        simp only [Bool.false_eq_true, if_false]
        rw [if_pos (by omega)]
      · subst ho
        subst hst
        by_cases hlt : pcount g a < pcount g rc
        · right
          refine ⟨a, ?_, ?_, hca⟩
          · show List.argAux _ (some rc) a = some a
            unfold List.argAux
            simp only [Option.casesOn]
            rw [if_pos hlt]
          · unfold fmcStep
            rw [hsolved]
            simp only [Bool.false_eq_true, if_false]
            rw [if_pos hlt]
        · right
          refine ⟨rc, ?_, ?_, hle⟩
          · show List.argAux _ (some rc) a = some rc
            unfold List.argAux
            simp only [Option.casesOn]
            rw [if_neg hlt]
          · unfold fmcStep
            rw [hsolved]
            simp only [Bool.false_eq_true, if_false]
            rw [if_neg hlt]
    · have hsolved : is_solved g a.1 a.2 = true := by
        simp only [is_solved, decide_eq_true_eq]
        omega
      have hstep : fmcStep g st a = st := by
        unfold fmcStep
        rw [hsolved]
        simp
      rw [if_neg (by simp [ha]), hstep]
      exact hR
  have hfold := foldl_rel hrel allCells (10, (-1, -1)) none (Or.inl ⟨rfl, rfl⟩)
  rw [← hspec] at hfold
  rcases hfold with ⟨ho, hst⟩ | ⟨rc, ho, hst, _⟩
  · rw [ho]
    show (allCells.foldl (fmcStep g) (10, (-1, -1))).2 = (-1, -1)
    rw [hst]
  · rw [ho]
    show (allCells.foldl (fmcStep g) (10, (-1, -1))).2 = _
    rw [hst]

theorem allCells_map_posIdx : allCells.map posIdx = List.range 81 := by
  decide

theorem pairwise_posIdx_allCells :
    allCells.Pairwise fun a b => posIdx a < posIdx b := by
  have h := List.pairwise_lt_range 81
  rw [← allCells_map_posIdx] at h
  exact List.pairwise_map.mp h

theorem pairwise_posIdx_unassigned (g : Grid) :
    (unassignedCells g).Pairwise fun a b => posIdx a < posIdx b :=
  List.Pairwise.sublist (List.filter_sublist _) pairwise_posIdx_allCells

theorem posIdx_argmin_min {g : Grid} {m a : Fin 9 × Fin 9}
    (hmm : m ∈ (unassignedCells g).argmin (pcount g))
    (ha : a ∈ unassignedCells g) (hle : pcount g a ≤ pcount g m) :
    posIdx m ≤ posIdx a := by
  have hmem : m ∈ unassignedCells g := List.argmin_mem hmm
  have hidx := List.index_of_argmin hmm ha hle
  rcases lt_or_eq_of_le hidx with hlt | heq
  · have hm' := List.indexOf_lt_length.mpr hmem
    have ha' := List.indexOf_lt_length.mpr ha
    have hpair := List.pairwise_iff_get.1 (pairwise_posIdx_unassigned g)
      ⟨_, hm'⟩ ⟨_, ha'⟩ (Fin.mk_lt_mk.mpr hlt)
    rw [List.indexOf_get, List.indexOf_get] at hpair
    exact le_of_lt hpair
  · have : m = a := (List.indexOf_inj hmem ha).1 heq
    rw [this]

/-- C3: `find_most_constrained` returns the sentinel `(-1, -1)` exactly when
every cell is assigned; otherwise it returns an unassigned cell whose
candidate count is minimal among all unassigned cells, and among the
minimal ones the first in row-major scan order — an unassigned cell with
zero candidates included, since 0 is below every other count. -/
theorem C3_find_most_constrained (g : Grid) :
    (find_most_constrained g = (-1, -1) ↔ ∀ r c : Fin 9, 0 < g r c) ∧
    (∀ r c : Fin 9, g r c = 0 →
      ∃ r0 c0 : Fin 9, g r0 c0 = 0 ∧
        find_most_constrained g = ((r0.val : Int), (c0.val : Int)) ∧
        (∀ r' c' : Fin 9, g r' c' = 0 →
          pcount g (r0, c0) ≤ pcount g (r', c')) ∧
        (∀ r' c' : Fin 9, g r' c' = 0 →
          pcount g (r', c') ≤ pcount g (r0, c0) →
            posIdx (r0, c0) ≤ posIdx (r', c'))) := by
  have hmain : ∀ r c : Fin 9, g r c = 0 →
      ∃ r0 c0 : Fin 9, g r0 c0 = 0 ∧
        find_most_constrained g = ((r0.val : Int), (c0.val : Int)) ∧
        (∀ r' c' : Fin 9, g r' c' = 0 →
          pcount g (r0, c0) ≤ pcount g (r', c')) ∧
        (∀ r' c' : Fin 9, g r' c' = 0 →
          pcount g (r', c') ≤ pcount g (r0, c0) →
            posIdx (r0, c0) ≤ posIdx (r', c')) := by
    intro r c hrc
    have hne : unassignedCells g ≠ [] := by
      intro hnil
      have := (mem_unassignedCells g (r, c)).mpr hrc
      rw [hnil] at this
      exact List.not_mem_nil _ this
    obtain ⟨m, hm⟩ : ∃ m, specSelect g = some m := by
      rcases ho : specSelect g with _ | m
      · exact absurd (List.argmin_eq_none.mp ho) hne
      · exact ⟨m, rfl⟩
    have hmm : m ∈ (unassignedCells g).argmin (pcount g) := hm
    have hmem : m ∈ unassignedCells g := List.argmin_mem hmm
    refine ⟨m.1, m.2, (mem_unassignedCells g m).mp hmem, ?_, ?_, ?_⟩
    · rw [fmc_eq_specSelect g, hm]
    · intro r' c' h'
      exact List.le_of_mem_argmin
        ((mem_unassignedCells g (r', c')).mpr h') hmm
    · intro r' c' h' hle
      have ha' : (r', c') ∈ unassignedCells g :=
        (mem_unassignedCells g (r', c')).mpr h'
      exact posIdx_argmin_min hmm ha' hle
  constructor
  · constructor
    · intro hsent
      by_contra hnot
      push_neg at hnot
      obtain ⟨r, c, hle⟩ := hnot
      obtain ⟨r0, c0, _, hfmc, _, _⟩ := hmain r c (by omega)
      rw [hsent] at hfmc
      have h1 : (-1 : Int) = (r0.val : Int) := congrArg Prod.fst hfmc
      omega
    · intro hall
      rw [fmc_eq_specSelect g]
      have : unassignedCells g = [] := by
        rw [List.eq_nil_iff_forall_not_mem]
        intro rc hrc
        have := (mem_unassignedCells g rc).mp hrc
        have := hall rc.1 rc.2
        omega
      show (match specSelect g with
        | none => ((-1 : Int), (-1 : Int))
        | some rc => ((rc.1.val : Int), (rc.2.val : Int))) = (-1, -1)
      rw [show specSelect g = none from by
        rw [specSelect, this, List.argmin_nil]]
  · exact hmain

theorem C3_find_most_constrained_witness :
    ∃ r0 c0 : Fin 9, zeroGrid r0 c0 = 0 ∧
      find_most_constrained zeroGrid = ((r0.val : Int), (c0.val : Int)) ∧
      (∀ r' c' : Fin 9, zeroGrid r' c' = 0 →
        pcount zeroGrid (r0, c0) ≤ pcount zeroGrid (r', c')) ∧
      (∀ r' c' : Fin 9, zeroGrid r' c' = 0 →
        pcount zeroGrid (r', c') ≤ pcount zeroGrid (r0, c0) →
          posIdx (r0, c0) ≤ posIdx (r', c')) :=
  (C3_find_most_constrained zeroGrid).2 0 0 rfl

/-! ### The solve loop -/

theorem solve_push_fold (row column : Fin 9) (g : Grid) :
    ∀ (ps : List ℕ) (g0 : Grid),
      (∀ p, set_number g0 row column p = set_number g row column p) →
      ∀ Q : List Grid,
        (ps.foldl
          (fun st p =>
            let g2 := set_number st.1 row column p
            (g2, st.2 ++ [g2]))
          (g0, Q)).2 = Q ++ ps.map (set_number g row column) := by
  intro ps
  induction ps with
  | nil =>
    intro g0 _ Q
    simp
  | cons p ps ih =>
    intro g0 hg0 Q
    simp only [List.foldl_cons, List.map_cons]
    rw [hg0 p]
    rw [ih (set_number g row column p)
      (fun q => set_number_overwrite g row column p q) (Q ++ [set_number g row column p])]
    simp

theorem expand_snd (g : Grid) (row column : Fin 9) (Q : List Grid) :
    (expand g row column Q).2 =
      Q ++ (get_possibilities g row column).map (set_number g row column) := by
  unfold expand
  exact solve_push_fold row column g (get_possibilities g row column) g
    (fun _ => rfl) Q

theorem specSelect_some_of_incomplete (g : Grid)
    (hnc : is_completed g = false) :
    ∃ m : Fin 9 × Fin 9, specSelect g = some m ∧ g m.1 m.2 = 0 := by
  obtain ⟨r, c, hrc⟩ := (is_completed_false_iff g).mp hnc
  have hne : unassignedCells g ≠ [] := by
    intro hnil
    have := (mem_unassignedCells g (r, c)).mpr hrc
    rw [hnil] at this
    exact List.not_mem_nil _ this
  rcases ho : specSelect g with _ | m
  · exact absurd (List.argmin_eq_none.mp ho) hne
  · have hmem : m ∈ unassignedCells g := List.argmin_mem ho
    exact ⟨m, rfl, (mem_unassignedCells g m).mp hmem⟩

theorem solveBody_eq (g : Grid) (Q : List Grid) (b1 b2 : Bool)
    (hnc : is_completed g = false) (hQ : Q ≠ []) :
    ∃ r0 c0 : Fin 9, g r0 c0 = 0 ∧ specSelect g = some (r0, c0) ∧
      ∃ h t,
        Q ++ (get_possibilities g r0 c0).map (set_number g r0 c0) = h :: t ∧
        solveBody ⟨g, Q, b1, b2⟩ = ⟨h, t, is_completed h, t.isEmpty⟩ := by
  obtain ⟨m, hsel, hm0⟩ := specSelect_some_of_incomplete g hnc
  have hfmc : find_most_constrained g = ((m.1.val : Int), (m.2.val : Int)) := by
    rw [fmc_eq_specSelect g, hsel]
  obtain ⟨q, Q', rfl⟩ : ∃ q Q', Q = q :: Q' := by
    cases Q with
    | nil => exact absurd rfl hQ
    | cons q Q' => exact ⟨q, Q', rfl⟩
  have hexp : (expand g m.1 m.2 (q :: Q')).2 =
      q :: (Q' ++ (get_possibilities g m.1 m.2).map (set_number g m.1 m.2)) := by
    rw [expand_snd]
    simp
  refine ⟨m.1, m.2, hm0, by rw [hsel], q,
    Q' ++ (get_possibilities g m.1 m.2).map (set_number g m.1 m.2),
    by simp, ?_⟩
  unfold solveBody
  dsimp only
  rw [hfmc]
  dsimp only
  rw [npIndex_coe, npIndex_coe]
  dsimp only
  rw [hexp]

theorem solveSpecFuel_succ (n : ℕ) (g : Grid) (Q : List Grid) :
    solveSpecFuel (n + 1) g Q =
      if is_completed g then g
      else
        match Q with
        | [] => g
        | _ :: _ =>
          match specSelect g with
          | none => g
          | some (r, c) =>
            match Q ++ (get_possibilities g r c).map (set_number g r c) with
            | [] => g
            | h :: t => solveSpecFuel n h t := rfl

theorem solveFuel_lockstep :
    ∀ (n : ℕ) (g : Grid) (Q : List Grid),
      (solveFuel n ⟨g, Q, is_completed g, Q.isEmpty⟩).grid =
        solveSpecFuel n g Q := by
  intro n
  induction n with
  | zero =>
    intro g Q
    rfl
  | succ n ih =>
    intro g Q
    cases hb : is_completed g with
    | true =>
      rw [solveFuel, if_pos (by simp), solveSpecFuel_succ, if_pos hb]
    | false =>
      cases Q with
      | nil =>
        rw [solveFuel, if_pos (by simp), solveSpecFuel_succ,
          if_neg (by simp [hb])]
      | cons q Q' =>
        obtain ⟨r0, c0, h0, hsel, h, t, hht, hbody⟩ :=
          solveBody_eq g (q :: Q') false ((q :: Q').isEmpty) hb (by simp)
        rw [solveFuel, if_neg (by simp), hbody, ih h t]
        rw [solveSpecFuel_succ, if_neg (by simp [hb])]
        dsimp only
        rw [hsel]
        dsimp only
        rw [hht]

theorem assignedCount_set (g : Grid) (row column : Fin 9) (v : ℕ)
    (h0 : g row column = 0) (hv : 0 < v) :
    assignedCount (set_number g row column v) = assignedCount g + 1 := by
  unfold assignedCount
  have hins :
      (Finset.univ.filter
        fun rc : Fin 9 × Fin 9 => 0 < set_number g row column v rc.1 rc.2) =
      insert (row, column)
        (Finset.univ.filter fun rc : Fin 9 × Fin 9 => 0 < g rc.1 rc.2) := by
    ext ⟨r, c⟩
    simp only [Finset.mem_insert, Finset.mem_filter, Finset.mem_univ, true_and,
      set_number, Prod.mk.injEq]
    by_cases hrc : r = row ∧ c = column
    · rw [if_pos hrc]
      simp [hrc, hv]
    · rw [if_neg hrc]
      constructor
      · intro hpos
        exact Or.inr hpos
      · intro hor
        rcases hor with hor | hor
        · exact absurd hor hrc
        · exact hor
  rw [hins, Finset.card_insert_of_not_mem]
  simp [h0]

theorem assignedCount_lt (g : Grid) (hnc : is_completed g = false) :
    assignedCount g < 81 := by
  obtain ⟨r, c, h0⟩ := (is_completed_false_iff g).mp hnc
  have hsub :
      (Finset.univ.filter fun rc : Fin 9 × Fin 9 => 0 < g rc.1 rc.2) ⊂
        Finset.univ := by
    rw [Finset.ssubset_univ_iff]
    intro heq
    have : (r, c) ∈ Finset.univ.filter
        fun rc : Fin 9 × Fin 9 => 0 < g rc.1 rc.2 := by
      rw [heq]
      exact Finset.mem_univ _
    simp only [Finset.mem_filter, Finset.mem_univ, true_and] at this
    omega
  have := Finset.card_lt_card hsub
  unfold assignedCount
  simpa using this

theorem T_pos (d : ℕ) : 0 < T d := by
  cases d with
  | zero => exact Nat.one_pos
  | succ d =>
    unfold T
    omega

theorem measure_pos (g : Grid) (Q : List Grid) : 0 < measure g Q := by
  unfold measure
  have := T_pos (81 - assignedCount g)
  omega

theorem measure_decrease (g : Grid) (Q : List Grid)
    (hnc : is_completed g = false) (r0 c0 : Fin 9) (h0 : g r0 c0 = 0)
    (h : Grid) (t : List Grid)
    (hht : Q ++ (get_possibilities g r0 c0).map (set_number g r0 c0) = h :: t) :
    measure h t < measure g Q := by
  have hA : assignedCount g < 81 := assignedCount_lt g hnc
  have hlen : (get_possibilities g r0 c0).length ≤ 9 :=
    possibilities_length_le g r0 c0 h0
  have hmeas_ht : measure h t =
      ((h :: t).map fun q => T (81 - assignedCount q)).sum := by
    unfold measure
    simp only [List.map_cons, List.sum_cons]
    omega
  have hchild :
      ((get_possibilities g r0 c0).map (set_number g r0 c0)).map
        (fun q => T (81 - assignedCount q)) =
      (get_possibilities g r0 c0).map
        (fun _ => T (81 - (assignedCount g + 1))) := by
    rw [List.map_map]
    apply List.map_congr_left
    intro p hp
    simp only [Function.comp_apply]
    rw [assignedCount_set g r0 c0 p h0 (possibilities_pos g r0 c0 h0 hp)]
  have hsum : measure h t =
      (Q.map fun q => T (81 - assignedCount q)).sum +
        (get_possibilities g r0 c0).length *
          T (81 - (assignedCount g + 1)) := by
    rw [hmeas_ht, ← hht, List.map_append, List.sum_append, hchild]
    congr 1
    rw [List.map_const']
    rw [List.sum_replicate]
    rw [smul_eq_mul]
  have hT : T (81 - assignedCount g) =
      1 + 9 * T (81 - (assignedCount g + 1)) := by
    have hD : 81 - assignedCount g = (81 - (assignedCount g + 1)) + 1 := by
      omega
    rw [hD]
    rfl
  have hTpos := T_pos (81 - (assignedCount g + 1))
  have hmul : (get_possibilities g r0 c0).length *
      T (81 - (assignedCount g + 1)) ≤
      9 * T (81 - (assignedCount g + 1)) :=
    Nat.mul_le_mul_right _ hlen
  rw [hsum]
  unfold measure
  rw [hT]
  omega

theorem solveFuel_stay {s : SolveState}
    (h : s.completed = true ∨ s.abort = true) :
    ∀ m, solveFuel m s = s := by
  intro m
  cases m with
  | zero => rfl
  | succ m =>
    have hc : (s.completed || s.abort) = true := by
      rcases h with h | h <;> simp [h]
    rw [solveFuel, if_pos hc]

theorem solveFuel_reaches :
    ∀ (k : ℕ) (g : Grid) (Q : List Grid), measure g Q ≤ k →
      (solveFuel k ⟨g, Q, is_completed g, Q.isEmpty⟩).completed = true ∨
      (solveFuel k ⟨g, Q, is_completed g, Q.isEmpty⟩).abort = true := by
  intro k
  induction k with
  | zero =>
    intro g Q hk
    exact absurd hk (by have := measure_pos g Q; omega)
  | succ k ih =>
    intro g Q hk
    cases hb : is_completed g with
    | true =>
      rw [solveFuel, if_pos (by simp)]
      exact Or.inl rfl
    | false =>
      cases Q with
      | nil =>
        rw [solveFuel, if_pos (by simp)]
        exact Or.inr rfl
      | cons q Q' =>
        obtain ⟨r0, c0, h0, hsel, h, t, hht, hbody⟩ :=
          solveBody_eq g (q :: Q') false ((q :: Q').isEmpty) hb (by simp)
        rw [solveFuel, if_neg (by simp), hbody]
        refine ih h t ?_
        have := measure_decrease g (q :: Q') hb r0 c0 h0 h t hht
        omega

theorem solveFuel_add :
    ∀ (n m : ℕ) (s : SolveState),
      solveFuel (n + m) s = solveFuel m (solveFuel n s) := by
  intro n
  induction n with
  | zero =>
    intro m s
    rw [Nat.zero_add]
    rfl
  | succ n ih =>
    intro m s
    by_cases hg : (s.completed || s.abort) = true
    · have hterm : s.completed = true ∨ s.abort = true :=
        Bool.or_eq_true_iff.mp hg
      rw [solveFuel_stay hterm, solveFuel_stay hterm, solveFuel_stay hterm]
    · have harith : n + 1 + m = (n + m) + 1 := by omega
      rw [harith, solveFuel, if_neg hg]
      rw [show solveFuel (n + 1) s = solveFuel n (solveBody s) from by
        rw [solveFuel, if_neg hg]]
      exact ih m (solveBody s)

/-! ### Claim theorems: the solve loop -/

/-- C1: `solve` is exactly the breadth-first branch-and-expand loop of the
spec — one FIFO frontier initialised with a snapshot of the grid, and while
the live grid is not completed and the frontier non-empty: select the most
constrained unassigned cell of the live grid, push one snapshot per
candidate (ascending) onto the back, pop the front into the live grid;
termination on completion or on a pop that empties the frontier, the live
grid then being the last-popped snapshot.  The spec loop is fuel-indexed
only as an artifact: any fuel at least `measure g [g]` yields the same
grid, namely `solve g`. -/
theorem C1_solve_refines_spec (g : Grid) :
    solve g = solveSpec g ∧
      ∀ n : ℕ, measure g [g] ≤ n → solveSpecFuel n g [g] = solve g := by
  constructor
  · exact solveFuel_lockstep (measure g [g]) g [g]
  · intro n hn
    have h1 : solveFuel n (initState g) =
        solveFuel (measure g [g]) (initState g) := by
      obtain ⟨m, rfl⟩ : ∃ m, n = measure g [g] + m :=
        ⟨n - measure g [g], by omega⟩
      rw [solveFuel_add]
      exact solveFuel_stay
        (solveFuel_reaches (measure g [g]) g [g] le_rfl) m
    calc solveSpecFuel n g [g]
        = (solveFuel n (initState g)).grid :=
          (solveFuel_lockstep n g [g]).symm
      _ = (solveFuel (measure g [g]) (initState g)).grid := by rw [h1]
      _ = solve g := rfl

theorem C1_solve_refines_spec_witness :
    measure zeroGrid [zeroGrid] ≤ measure zeroGrid [zeroGrid] ∧
      solveSpecFuel (measure zeroGrid [zeroGrid]) zeroGrid [zeroGrid] =
        solve zeroGrid :=
  ⟨le_rfl,
    (C1_solve_refines_spec zeroGrid).2 (measure zeroGrid [zeroGrid]) le_rfl⟩

/-- C9: the solve loop terminates on every initial grid: after
`measure g [g]` iterations the state is terminal (completed or aborted) and
every additional amount of fuel leaves it unchanged. -/
theorem C9_solve_terminates (g : Grid) :
    ∃ n : ℕ,
      ((solveFuel n (initState g)).completed = true ∨
        (solveFuel n (initState g)).abort = true) ∧
      (∀ m : ℕ, solveFuel (n + m) (initState g) = solveFuel n (initState g)) ∧
      solve g = (solveFuel n (initState g)).grid := by
  have hreach := solveFuel_reaches (measure g [g]) g [g] le_rfl
  refine ⟨measure g [g], hreach, ?_, rfl⟩
  intro m
  rw [solveFuel_add]
  exact solveFuel_stay hreach m

/-- C10: `solve` never changes a cell that was assigned before the call:
every queued snapshot and the live grid extend the initial assignment
throughout the search. -/
theorem C10_solve_preserves_assigned (g : Grid) (r c : Fin 9)
    (h : 0 < g r c) : solve g r c = g r c := by
  have hfuel :
      ∀ (k : ℕ) (g0 live : Grid) (Q : List Grid),
        (∀ r' c' : Fin 9, 0 < g0 r' c' → live r' c' = g0 r' c') →
        (∀ q ∈ Q, ∀ r' c' : Fin 9, 0 < g0 r' c' → q r' c' = g0 r' c') →
        (∀ r' c' : Fin 9, 0 < g0 r' c' →
          (solveFuel k ⟨live, Q, is_completed live, Q.isEmpty⟩).grid r' c' =
            g0 r' c') ∧
        (∀ q ∈ (solveFuel k ⟨live, Q, is_completed live, Q.isEmpty⟩).queue,
          ∀ r' c' : Fin 9, 0 < g0 r' c' → q r' c' = g0 r' c') := by
    intro k
    induction k with
    | zero =>
      intro g0 live Q hg hQ
      exact ⟨hg, hQ⟩
    | succ k ih =>
      intro g0 live Q hg hQ
      cases hb : is_completed live with
      | true =>
        rw [solveFuel, if_pos (by simp)]
        exact ⟨hg, hQ⟩
      | false =>
        cases Q with
        | nil =>
          rw [solveFuel, if_pos (by simp)]
          exact ⟨hg, hQ⟩
        | cons q Q' =>
          obtain ⟨r0, c0, h0, hsel, hh, t, hht, hbody⟩ :=
            solveBody_eq live (q :: Q') false ((q :: Q').isEmpty) hb (by simp)
          rw [solveFuel, if_neg (by simp), hbody]
          have hchild :
              ∀ x ∈ (q :: Q') ++
                (get_possibilities live r0 c0).map (set_number live r0 c0),
                ∀ r' c' : Fin 9, 0 < g0 r' c' → x r' c' = g0 r' c' := by
            intro x hx
            rcases List.mem_append.mp hx with hx | hx
            · exact hQ x hx
            · obtain ⟨p, _, rfl⟩ := List.mem_map.mp hx
              intro r' c' hpos
              have hne : ¬(r' = r0 ∧ c' = c0) := by
                rintro ⟨rfl, rfl⟩
                have := hg r' c' hpos
                omega
              rw [set_number_other _ _ _ _ _ _ hne]
              exact hg r' c' hpos
          exact ih g0 hh t
            (hchild hh (by rw [hht]; exact List.mem_cons_self _ _))
            (fun x hx =>
              hchild x (by rw [hht]; exact List.mem_cons_of_mem _ hx))
  exact (hfuel (measure g [g]) g g [g] (fun _ _ _ => rfl)
    (by
      intro q hq
      rw [List.mem_singleton] at hq
      subst hq
      exact fun _ _ _ => rfl)).1 r c h

theorem C10_solve_preserves_assigned_witness :
    0 < set_number zeroGrid 0 0 5 0 0 ∧
      solve (set_number zeroGrid 0 0 5) 0 0 = set_number zeroGrid 0 0 5 0 0 :=
  ⟨by decide,
    C10_solve_preserves_assigned (set_number zeroGrid 0 0 5) 0 0 (by decide)⟩

end Sudoku
